import Mathlib

/-!
# bluez_tools: `call.c`, the hands-free profile helpers

A shallow embedding of the HFP helpers of `src/call.c`: the feature masks, the
indicator constants, the session record `hfp_pvt`, and the three helpers
`hfp_send_atd`, `rfcomm_write_full` and `rfcomm_wait`.

Bytes are natural numbers.  A C string argument is the list of bytes found at
the pointer; its content is what precedes the first NUL (`c_str`).
-/

namespace BluezTools

/-! ## Feature masks (call.c lines 19-35) -/

def HFP_HF_ECNR : Nat := 1 <<< 0
def HFP_HF_CW : Nat := 1 <<< 1
def HFP_HF_CID : Nat := 1 <<< 2
def HFP_HF_VOICE : Nat := 1 <<< 3
def HFP_HF_VOLUME : Nat := 1 <<< 4
def HFP_HF_STATUS : Nat := 1 <<< 5
def HFP_HF_CONTROL : Nat := 1 <<< 6

def HFP_AG_CW : Nat := 1 <<< 0
def HFP_AG_ECNR : Nat := 1 <<< 1
def HFP_AG_VOICE : Nat := 1 <<< 2
def HFP_AG_RING : Nat := 1 <<< 3
def HFP_AG_TAG : Nat := 1 <<< 4
def HFP_AG_REJECT : Nat := 1 <<< 5
def HFP_AG_STATUS : Nat := 1 <<< 6
def HFP_AG_CONTROL : Nat := 1 <<< 7
def HFP_AG_ERRORS : Nat := 1 <<< 8

/-! ## Indicator constants (call.c lines 37-59) -/

def HFP_CIND_UNKNOWN : Int := -1
def HFP_CIND_NONE : Int := 0
def HFP_CIND_SERVICE : Int := 1
def HFP_CIND_CALL : Int := 2
def HFP_CIND_CALLSETUP : Int := 3
def HFP_CIND_CALLHELD : Int := 4
def HFP_CIND_SIGNAL : Int := 5
def HFP_CIND_ROAM : Int := 6
def HFP_CIND_BATTCHG : Int := 7

def HFP_CIND_CALL_NONE : Int := 0
def HFP_CIND_CALL_ACTIVE : Int := 1

def HFP_CIND_CALLSETUP_NONE : Int := 0
def HFP_CIND_CALLSETUP_INCOMING : Int := 1
def HFP_CIND_CALLSETUP_OUTGOING : Int := 2
def HFP_CIND_CALLSETUP_ALERTING : Int := 3

def HFP_CIND_SERVICE_NONE : Int := 0
def HFP_CIND_SERVICE_AVAILABLE : Int := 1

/-! ## Records (call.c lines 64-117)

The one-bit fields `int f:1` are flags; they are embedded as `Bool`
(set / not set). -/

/-- The features we support: `struct hfp_hf`. -/
structure hfp_hf where
  ecnr : Bool
  cw : Bool
  cid : Bool
  voice : Bool
  volume : Bool
  status : Bool
  control : Bool
deriving DecidableEq, Repr

/-- The features the AG supports: `struct hfp_ag`. -/
structure hfp_ag where
  cw : Bool
  ecnr : Bool
  voice : Bool
  ring : Bool
  tag : Bool
  reject : Bool
  status : Bool
  control : Bool
  errors : Bool
deriving DecidableEq, Repr

/-- The indicator name to index mapping: `struct hfp_cind`. -/
structure hfp_cind where
  service : Int
  call : Int
  callsetup : Int
  callheld : Int
  signal : Int
  roam : Int
  battchg : Int
deriving DecidableEq, Repr

/-- The state of one hfp connection: `struct hfp_pvt`.  `owner` is the address
held by the pointer field; the two arrays have 16 entries in C. -/
structure hfp_pvt where
  owner : Nat
  initialized : Bool
  nocallsetup : Bool
  brsf : hfp_ag
  cind_index : List Int
  cind_state : List Int
  cind_map : hfp_cind
  rsock : Int
  rport : Int
  sent_alerting : Int
deriving DecidableEq, Repr

/-- Our supported features, `hfp_our_brsf`: only caller id. -/
def hfp_our_brsf : hfp_hf :=
  { ecnr := false
    cw := false
    cid := true
    voice := false
    volume := false
    status := false
    control := false }

/-! ## The environment of the helpers -/

/-- What the helpers can act on outside their arguments: the `write(2)` calls
made on sockets so far (descriptor and bytes, oldest first) and the bytes
printed on standard output. -/
structure World where
  writes : List (Int × List Nat)
  stdout : List Nat
deriving DecidableEq, Repr

/-- The bytes sent so far on socket `fd`. -/
def World.sock_stream (w : World) (fd : Int) : List Nat :=
  ((w.writes.filter (fun e => e.1 = fd)).map (fun e => e.2)).flatten

/-! ## C strings and formatted output -/

/-- The bytes of a string literal. -/
def lit (s : String) : List Nat := s.data.map Char.toNat

/-- The content of the C string stored at a pointer: the bytes before the
first NUL. -/
def c_str (p : List Nat) : List Nat := p.takeWhile (fun b => b ≠ 0)

/-- The C library `snprintf(buf, size, ...)` on the fully formatted text
`out`: the string left in `buf` (at most `size - 1` bytes, then a NUL) and the
returned length of the untruncated text. -/
def snprintf (size : Nat) (out : List Nat) : List Nat × Int :=
  (out.take (size - 1), out.length)

/-- The conversion `(int) count` of a `size_t`: reduction to 32 bits, two's
complement. -/
def to_int (n : Nat) : Int :=
  if n % 2 ^ 32 < 2 ^ 31 then (n % 2 ^ 32 : Nat) else (n % 2 ^ 32 : Nat) - 2 ^ 32

/-- The conversion `%d`. -/
def fmt_d (i : Int) : List Nat :=
  (if i < 0 then lit "-" else []) ++ (Nat.toDigits 10 i.natAbs).map Char.toNat

/-- The conversion `%.*s` with precision `prec`: at most `prec` bytes of the
string, the whole string when the precision is negative. -/
def fmt_prec_s (prec : Int) (p : List Nat) : List Nat :=
  if prec < 0 then c_str p else (c_str p).take prec.toNat

/-! ## The helpers (call.c lines 144-198) -/

/-- The text formatted by `"ATD%s;\r"`. -/
def atd_format (number : List Nat) : List Nat :=
  lit "ATD" ++ c_str number ++ lit ";\r"

/-- What a call of `hfp_send_atd` leaves behind: the returned value, the
string in the local buffer `cmd`, the session and the environment. -/
structure AtdResult where
  ret : Int
  cmd : List Nat
  hfp : hfp_pvt
  world : World
deriving DecidableEq, Repr

/-- The function `hfp_send_atd(hfp, number)`: formats the command into the
64-byte buffer `cmd` and returns 1; the call of `rfcomm_write` is commented
out in the source. -/
def hfp_send_atd (hfp : hfp_pvt) (number : List Nat) (w : World) : AtdResult :=
  let cmd := (snprintf 64 (atd_format number)).1
  { ret := 1, cmd := cmd, hfp := hfp, world := w }

/-- The function `rfcomm_write_full(rsock, buf, count)`: prints a trace line
on standard output and returns 0; the loop around `write` is commented out in
the source. -/
def rfcomm_write_full (rsock : Int) (buf : List Nat) (count : Nat) (w : World) :
    Int × World :=
  let line := lit "rfcomm_write() (" ++ fmt_d rsock ++ lit ") [" ++
    fmt_prec_s (to_int count) buf ++ lit "]\n"
  (0, { w with stdout := w.stdout ++ line })

/-- The function `rfcomm_wait(rsock, ms)`: returns 1; `*ms` is left as it
is. The result is the returned value and the value of `*ms` afterwards. -/
def rfcomm_wait (_rsock : Int) (ms : Int) : Int × Int :=
  (1, ms)

/-! ## The feature negotiator -/

/-- Modelled from the spec: `decode_ag_features` of section 4.1, the function
that fills a `struct hfp_ag` from the `+BRSF` bitmask; call.c has the masks and
the record but no such function. Each flag is the test of its mask. -/
def decode_ag_features (b : Nat) : hfp_ag :=
  { cw := (b &&& HFP_AG_CW) != 0
    ecnr := (b &&& HFP_AG_ECNR) != 0
    voice := (b &&& HFP_AG_VOICE) != 0
    ring := (b &&& HFP_AG_RING) != 0
    tag := (b &&& HFP_AG_TAG) != 0
    reject := (b &&& HFP_AG_REJECT) != 0
    status := (b &&& HFP_AG_STATUS) != 0
    control := (b &&& HFP_AG_CONTROL) != 0
    errors := (b &&& HFP_AG_ERRORS) != 0 }

/-- Modelled from the spec: the bitmask re-assembled from the nine AG flags
(the round trip of section 8); call.c has no such function. -/
def ag_features_bitmask (f : hfp_ag) : Nat :=
  (if f.cw then HFP_AG_CW else 0) ||| (if f.ecnr then HFP_AG_ECNR else 0) |||
  (if f.voice then HFP_AG_VOICE else 0) ||| (if f.ring then HFP_AG_RING else 0) |||
  (if f.tag then HFP_AG_TAG else 0) ||| (if f.reject then HFP_AG_REJECT else 0) |||
  (if f.status then HFP_AG_STATUS else 0) ||| (if f.control then HFP_AG_CONTROL else 0) |||
  (if f.errors then HFP_AG_ERRORS else 0)

/-- Modelled from the spec: `encode_hf_features` of section 4.1, the bitmask
sent in `AT+BRSF=<n>`; call.c has the masks and `hfp_our_brsf` but no function
that combines them. Each set flag contributes its mask. -/
def encode_hf_features (hf : hfp_hf) : Nat :=
  (if hf.ecnr then HFP_HF_ECNR else 0) ||| (if hf.cw then HFP_HF_CW else 0) |||
  (if hf.cid then HFP_HF_CID else 0) ||| (if hf.voice then HFP_HF_VOICE else 0) |||
  (if hf.volume then HFP_HF_VOLUME else 0) ||| (if hf.status then HFP_HF_STATUS else 0) |||
  (if hf.control then HFP_HF_CONTROL else 0)

/-! ## The response decoder and the byte feed -/

/-- Modelled from the spec: the events of section 4.2 that `decode_response`
produces; call.c has no decoder. An indicator name is reported as its
`HFP_CIND_*` code, `HFP_CIND_UNKNOWN` for a name that is not canonical. -/
inductive Event where
  | FeaturesReported (bitmask : Nat)
  | IndicatorDescriptorsReported (names : List Int)
  | IndicatorValuesReported (values : List Int)
  | IndicatorChanged (index : Nat) (value : Int)
  | Ack
  | Error (code : Option Nat)
  | Unrecognized (raw : List Nat)
deriving DecidableEq, Repr

/-- An unsigned decimal number: one or more ASCII digits. -/
def parse_uint (s : List Nat) : Option Nat :=
  if s ≠ [] ∧ s.all (fun b => 48 ≤ b ∧ b ≤ 57) then
    some (s.foldl (fun n b => 10 * n + (b - 48)) 0)
  else none

/-- The pieces of `s` between the occurrences of the byte `sep`. -/
def split_on (sep : Nat) : List Nat → List (List Nat)
  | [] => [[]]
  | b :: rest =>
    if b = sep then [] :: split_on sep rest
    else match split_on sep rest with
      | [] => [[b]]
      | h :: t => (b :: h) :: t

/-- The text after the leading `tag`, when `s` starts with it. -/
def drop_tag : List Nat → List Nat → Option (List Nat)
  | [], s => some s
  | _ :: _, [] => none
  | t :: ts, b :: s => if t = b then drop_tag ts s else none

/-- All the numbers of a list of texts, when each one is a number. -/
def parse_uints : List (List Nat) → Option (List Int)
  | [] => some []
  | s :: rest =>
    match parse_uint s, parse_uints rest with
    | some n, some ns => some ((n : Int) :: ns)
    | _, _ => none

/-- The texts between double quotes, in order; `none` when a quote is left
open. `cur` is the quoted text being read, if any. -/
def quoted_names : Option (List Nat) → List Nat → Option (List (List Nat))
  | none, [] => some []
  | some _, [] => none
  | none, b :: rest => if b = 34 then quoted_names (some []) rest else quoted_names none rest
  | some cur, b :: rest =>
    if b = 34 then (quoted_names none rest).map (fun ns => cur :: ns)
    else quoted_names (some (cur ++ [b])) rest

/-- The `HFP_CIND_*` code of an indicator name. -/
def cind_code (name : List Nat) : Int :=
  if name = lit "service" then HFP_CIND_SERVICE
  else if name = lit "call" then HFP_CIND_CALL
  else if name = lit "callsetup" then HFP_CIND_CALLSETUP
  else if name = lit "callheld" then HFP_CIND_CALLHELD
  else if name = lit "signal" then HFP_CIND_SIGNAL
  else if name = lit "roam" then HFP_CIND_ROAM
  else if name = lit "battchg" then HFP_CIND_BATTCHG
  else HFP_CIND_UNKNOWN

/-- Modelled from the spec: `decode_response` of section 4.2 on one logical
line (terminator removed), for the wire format of section 6: `OK`, `ERROR`,
`ERROR:<code>`, `+BRSF:<uint>`, `+CIEV:<index>,<value>`,
`+CIND:("name",(range)),...` and `+CIND:<v0>,<v1>,...`; any other line is
`Unrecognized`. call.c has no decoder. -/
def decode_response (line : List Nat) : Event :=
  if line = lit "OK" then Event.Ack
  else if line = lit "ERROR" then Event.Error none
  else
    match drop_tag (lit "ERROR:") line with
    | some r =>
      (match parse_uint r with
       | some c => Event.Error (some c)
       | none => Event.Unrecognized line)
    | none =>
    match drop_tag (lit "+BRSF:") line with
    | some r =>
      (match parse_uint r with
       | some n => Event.FeaturesReported n
       | none => Event.Unrecognized line)
    | none =>
    match drop_tag (lit "+CIEV:") line with
    | some r =>
      (match split_on 44 r with
       | [i, v] =>
         (match parse_uint i, parse_uint v with
          | some i, some v => Event.IndicatorChanged i v
          | _, _ => Event.Unrecognized line)
       | _ => Event.Unrecognized line)
    | none =>
    match drop_tag (lit "+CIND:") line with
    | some r =>
      if r.head? = some 40 then
        (match quoted_names none r with
         | some ns => Event.IndicatorDescriptorsReported (ns.map cind_code)
         | none => Event.Unrecognized line)
      else
        (match parse_uints (split_on 44 r) with
         | some vs => Event.IndicatorValuesReported vs
         | none => Event.Unrecognized line)
    | none => Event.Unrecognized line

/-- The first line of `buf` that is terminated by CR LF, without its
terminator, and what follows it; `none` when `buf` holds no terminator. -/
def split_line : List Nat → Option (List Nat × List Nat)
  | [] => none
  | b :: rest =>
    if b = 13 ∧ rest.head? = some 10 then some ([], rest.tail)
    else (split_line rest).map (fun p => (b :: p.1, p.2))

/-- The loop that removes complete lines from the buffer, at most `fuel` of
them: the lines removed and the partial line left. -/
def take_lines_loop : Nat → List Nat → List (List Nat) × List Nat
  | 0, buf => ([], buf)
  | fuel + 1, buf =>
    match split_line buf with
    | none => ([], buf)
    | some (l, r) => (l :: (take_lines_loop fuel r).1, (take_lines_loop fuel r).2)

/-- Modelled from the spec: the line reassembly of section 4.2 ("partial
lines are buffered until a terminator is seen"): all the complete lines of
the buffer and the partial line that stays buffered. A buffer of `n` bytes
holds fewer than `n + 1` lines. call.c has no such code. -/
def take_lines (buf : List Nat) : List (List Nat) × List Nat :=
  take_lines_loop buf.length buf

/-- Modelled from the spec: a call session as the byte feed sees it, the
state of the state machine and the line-reassembly buffer of the codec. The
state machine of section 4.4 is not in call.c; its state is any type `σ`
(`hfp_pvt` holds the fields section 3 lists). -/
structure CallSession (σ : Type) where
  state : σ
  rx : List Nat

/-- The events applied in order by the state machine `step`, which maps a
state and an event to the next state and the effects to report. -/
def apply_events {σ ε : Type} (step : σ → Event → σ × List ε) : σ → List Event → σ × List ε
  | st, [] => (st, [])
  | st, e :: es =>
    ((apply_events step (step st e).1 es).1, (step st e).2 ++ (apply_events step (step st e).1 es).2)

/-- What `on_bytes` gives back: the session afterwards, the events decoded
and the effects reported. -/
structure FeedResult (σ ε : Type) where
  session : CallSession σ
  events : List Event
  effects : List ε

/-- Modelled from the spec: `on_bytes` of section 4.4 ("feeds transport
input, decodes zero or more events, applies each, returns any
externally-visible effects"). The bytes join the buffered partial line, every
complete line is decoded and applied by the state machine `step`, the rest
stays buffered. call.c only declares `rfcomm_read`. -/
def on_bytes {σ ε : Type} (step : σ → Event → σ × List ε) (s : CallSession σ)
    (bytes : List Nat) : FeedResult σ ε :=
  let p := take_lines (s.rx ++ bytes)
  let events := p.1.map decode_response
  let r := apply_events step s.state events
  { session := { state := r.1, rx := p.2 }, events := events, effects := r.2 }

/-- Two calls of `on_bytes` in a row, first with `a` then with `b`: the final
session, and the events and effects of both calls in order. -/
def on_bytes_twice {σ ε : Type} (step : σ → Event → σ × List ε) (s : CallSession σ)
    (a b : List Nat) : FeedResult σ ε :=
  let r1 := on_bytes step s a
  let r2 := on_bytes step r1.session b
  { session := r2.session, events := r1.events ++ r2.events, effects := r1.effects ++ r2.effects }

/-- Modelled from the spec: `apply_update(index, value)` of section 4.3 on the
session record, used as a sample state machine: a `+CIEV` report stores the
value at an index below 16 and reports it, any other event changes nothing. -/
def sample_step (hfp : hfp_pvt) (e : Event) : hfp_pvt × List (Nat × Int) :=
  match e with
  | Event.IndicatorChanged i v =>
    if i < 16 then ({ hfp with cind_state := hfp.cind_state.set i v }, [(i, v)]) else (hfp, [])
  | _ => (hfp, [])

/-! ## Sample inputs -/

/-- A session with no service level connection. -/
def hfp0 : hfp_pvt :=
  { owner := 0
    initialized := false
    nocallsetup := false
    brsf := decode_ag_features 0
    cind_index := List.replicate 16 0
    cind_state := List.replicate 16 0
    cind_map := ⟨0, 0, 0, 0, 0, 0, 0⟩
    rsock := 3
    rport := 1
    sent_alerting := 0 }

/-- An environment in which nothing has been written yet. -/
def world0 : World := { writes := [], stdout := [] }

/-! ## Helper lemmas -/

theorem c_str_of_no_nul (number : List Nat) (h : ∀ b ∈ number, b ≠ 0) : c_str number = number := by
  unfold c_str
  rw [List.takeWhile_eq_self_iff]
  intro b hb
  simpa using h b hb

theorem atd_format_length (number : List Nat) :
    (atd_format number).length = (c_str number).length + 5 := by
  simp [atd_format, lit]

theorem hfp_send_atd_cmd (hfp : hfp_pvt) (number : List Nat) (w : World) :
    (hfp_send_atd hfp number w).cmd = (atd_format number).take 63 := rfl

theorem and_mask_mod (b m : Nat) (hm : m &&& 511 = m) : b &&& m = (b % 512) &&& m := by
  have h := Nat.and_pow_two_sub_one_eq_mod b 9
  norm_num at h
  rw [← h, Nat.and_assoc, Nat.and_comm 511 m, hm]

theorem decode_ag_features_mod (b : Nat) :
    decode_ag_features b = decode_ag_features (b % 512) := by
  unfold decode_ag_features
  rw [and_mask_mod b HFP_AG_CW (by decide), and_mask_mod b HFP_AG_ECNR (by decide),
    and_mask_mod b HFP_AG_VOICE (by decide), and_mask_mod b HFP_AG_RING (by decide),
    and_mask_mod b HFP_AG_TAG (by decide), and_mask_mod b HFP_AG_REJECT (by decide),
    and_mask_mod b HFP_AG_STATUS (by decide), and_mask_mod b HFP_AG_CONTROL (by decide),
    and_mask_mod b HFP_AG_ERRORS (by decide)]

set_option maxRecDepth 100000 in
theorem decode_ag_features_table : ∀ x : Fin 512,
    ((decode_ag_features x.val).cw = x.val.testBit 0 ∧
      (decode_ag_features x.val).ecnr = x.val.testBit 1 ∧
      (decode_ag_features x.val).voice = x.val.testBit 2 ∧
      (decode_ag_features x.val).ring = x.val.testBit 3 ∧
      (decode_ag_features x.val).tag = x.val.testBit 4 ∧
      (decode_ag_features x.val).reject = x.val.testBit 5 ∧
      (decode_ag_features x.val).status = x.val.testBit 6 ∧
      (decode_ag_features x.val).control = x.val.testBit 7 ∧
      (decode_ag_features x.val).errors = x.val.testBit 8) ∧
    ag_features_bitmask (decode_ag_features x.val) = x.val := by
  decide

theorem split_line_append (x y l r : List Nat) (h : split_line x = some (l, r)) :
    split_line (x ++ y) = some (l, r ++ y) := by
  induction x generalizing l with
  | nil => simp [split_line] at h
  | cons b rest ih =>
    rw [List.cons_append]
    unfold split_line at h ⊢
    by_cases hc : b = 13 ∧ rest.head? = some 10
    · rw [if_pos hc] at h
      obtain ⟨hb, hr⟩ := hc
      cases rest with
      | nil => simp at hr
      | cons c t =>
        simp only [List.head?_cons, Option.some.injEq] at hr
        subst hr
        simp only [List.tail_cons, Option.some.injEq, Prod.mk.injEq] at h
        obtain ⟨hl, hr⟩ := h
        subst hl hr
        simp [hb]
    · rw [if_neg hc] at h
      cases hs : split_line rest with
      | none => rw [hs] at h; simp at h
      | some p =>
        obtain ⟨l1, r1⟩ := p
        rw [hs] at h
        simp only [Option.map_some', Option.some.injEq, Prod.mk.injEq] at h
        obtain ⟨hl, hr⟩ := h
        subst hl hr
        have hne : rest ≠ [] := by
          intro he
          rw [he] at hs
          simp [split_line] at hs
        have hhead : (rest ++ y).head? = rest.head? := by
          cases rest with
          | nil => exact absurd rfl hne
          | cons c t => rfl
        rw [hhead, if_neg hc, ih l1 hs]
        rfl

theorem split_line_length (x l r : List Nat) (h : split_line x = some (l, r)) :
    l.length + r.length + 2 = x.length := by
  induction x generalizing l with
  | nil => simp [split_line] at h
  | cons b rest ih =>
    unfold split_line at h
    by_cases hc : b = 13 ∧ rest.head? = some 10
    · rw [if_pos hc] at h
      cases rest with
      | nil => simp at hc
      | cons c t =>
        simp only [List.tail_cons, Option.some.injEq, Prod.mk.injEq] at h
        obtain ⟨hl, hr⟩ := h
        subst hl hr
        simp
    · rw [if_neg hc] at h
      cases hs : split_line rest with
      | none => rw [hs] at h; simp at h
      | some p =>
        obtain ⟨l1, r1⟩ := p
        rw [hs] at h
        simp only [Option.map_some', Option.some.injEq, Prod.mk.injEq] at h
        obtain ⟨hl, hr⟩ := h
        subst hl hr
        have := ih l1 hs
        simp only [List.length_cons]
        omega

theorem split_line_complete (l : List Nat) (h : split_line l = none) :
    split_line (l ++ [13, 10]) = some (l, []) := by
  induction l with
  | nil => rfl
  | cons b rest ih =>
    unfold split_line at h
    by_cases hc : b = 13 ∧ rest.head? = some 10
    · rw [if_pos hc] at h; simp at h
    · rw [if_neg hc] at h
      have hs : split_line rest = none := by
        cases hs : split_line rest with
        | none => rfl
        | some p => rw [hs] at h; simp at h
      rw [List.cons_append]
      unfold split_line
      have hc2 : ¬ (b = 13 ∧ (rest ++ [13, 10]).head? = some 10) := by
        cases rest with
        | nil => simp
        | cons c t => simpa using hc
      rw [if_neg hc2, ih hs]
      rfl

/-- Fuel: any two amounts of fuel that cover the length of the buffer give the
same lines. -/
theorem take_lines_loop_fuel (f1 f2 : Nat) (buf : List Nat) (h1 : buf.length ≤ f1)
    (h2 : buf.length ≤ f2) : take_lines_loop f1 buf = take_lines_loop f2 buf := by
  induction f1 generalizing f2 buf with
  | zero =>
    have hb : buf = [] := List.eq_nil_of_length_eq_zero (by omega)
    subst hb
    cases f2 <;> rfl
  | succ n ih =>
    cases f2 with
    | zero =>
      have hb : buf = [] := List.eq_nil_of_length_eq_zero (by omega)
      subst hb
      rfl
    | succ m =>
      unfold take_lines_loop
      cases hs : split_line buf with
      | none => rfl
      | some p =>
        obtain ⟨l, r⟩ := p
        have := split_line_length buf l r hs
        simp only
        rw [ih m r (by omega) (by omega)]

theorem take_lines_loop_succ (n : Nat) (buf : List Nat) :
    take_lines_loop (n + 1) buf =
      match split_line buf with
      | none => ([], buf)
      | some (l, r) => (l :: (take_lines_loop n r).1, (take_lines_loop n r).2) := rfl

/-- The loop run with the fuel of `take_lines` is the unbounded loop: one step
of it. -/
theorem take_lines_step (buf : List Nat) :
    take_lines buf =
      match split_line buf with
      | none => ([], buf)
      | some (l, r) => (l :: (take_lines r).1, (take_lines r).2) := by
  unfold take_lines
  cases hb : buf.length with
  | zero =>
    have hnil : buf = [] := List.eq_nil_of_length_eq_zero hb
    subst hnil
    rfl
  | succ n =>
    rw [take_lines_loop_succ]
    cases hs : split_line buf with
    | none => rfl
    | some p =>
      obtain ⟨l, r⟩ := p
      have := split_line_length buf l r hs
      simp only
      rw [take_lines_loop_fuel n r.length r (by omega) (Nat.le_refl _)]

theorem take_lines_append_aux (n : Nat) (y : List Nat) : ∀ x : List Nat, x.length ≤ n →
    take_lines (x ++ y) =
      ((take_lines x).1 ++ (take_lines ((take_lines x).2 ++ y)).1,
        (take_lines ((take_lines x).2 ++ y)).2) := by
  induction n with
  | zero =>
    intro x hx
    have hnil : x = [] := List.eq_nil_of_length_eq_zero (by omega)
    subst hnil
    rfl
  | succ n ih =>
    intro x hx
    cases hs : split_line x with
    | none =>
      have hx : take_lines x = ([], x) := by rw [take_lines_step, hs]
      rw [hx]
      rfl
    | some p =>
      obtain ⟨l, r⟩ := p
      have hlen := split_line_length x l r hs
      have hx : take_lines x = (l :: (take_lines r).1, (take_lines r).2) := by
        rw [take_lines_step, hs]
      have hxy : take_lines (x ++ y) = (l :: (take_lines (r ++ y)).1, (take_lines (r ++ y)).2) := by
        rw [take_lines_step, split_line_append x y l r hs]
      rw [hxy, hx, ih r (by omega)]
      rfl

/-- Lines are reassembled across chunks: the lines of `x ++ y` are the lines
of `x` followed by the lines found once `y` joins what `x` left buffered. -/
theorem take_lines_append (x y : List Nat) :
    take_lines (x ++ y) =
      ((take_lines x).1 ++ (take_lines ((take_lines x).2 ++ y)).1,
        (take_lines ((take_lines x).2 ++ y)).2) :=
  take_lines_append_aux x.length y x (Nat.le_refl _)

theorem take_lines_complete (l : List Nat) (h : split_line l = none) :
    take_lines (l ++ [13, 10]) = ([l], []) := by
  rw [take_lines_step, split_line_complete l h]
  rfl

theorem apply_events_append {σ ε : Type} (step : σ → Event → σ × List ε) (st : σ)
    (e1 e2 : List Event) :
    apply_events step st (e1 ++ e2) =
      ((apply_events step (apply_events step st e1).1 e2).1,
        (apply_events step st e1).2 ++ (apply_events step (apply_events step st e1).1 e2).2) := by
  induction e1 generalizing st with
  | nil => simp [apply_events]
  | cons e es ih =>
    rw [List.cons_append]
    simp only [apply_events]
    rw [ih]
    simp only [List.append_assoc]

theorem on_bytes_twice_eq {σ ε : Type} (step : σ → Event → σ × List ε) (s : CallSession σ)
    (a b : List Nat) : on_bytes_twice step s a b = on_bytes step s (a ++ b) := by
  simp only [on_bytes_twice, on_bytes]
  rw [← List.append_assoc, take_lines_append (s.rx ++ a) b]
  simp only [List.map_append, apply_events_append]

/-- A dial string of at most 58 bytes fits the buffer: nothing is cut. -/
theorem hfp_send_atd_cmd_short (hfp : hfp_pvt) (number : List Nat) (w : World)
    (h : (c_str number).length ≤ 58) :
    (hfp_send_atd hfp number w).cmd = lit "ATD" ++ c_str number ++ lit ";\r" := by
  rw [hfp_send_atd_cmd, List.take_of_length_le]
  · rfl
  · rw [atd_format_length]; omega

/-! ## The dial command -/

/-- C1 (amended): for every dial string of at most 58 bytes, the command built
by `hfp_send_atd` is exactly "ATD", the bytes of the number, ";" and one
carriage return. -/
theorem hfp_send_atd_exact (hfp : hfp_pvt) (number : List Nat) (w : World)
    (h : (c_str number).length ≤ 58) :
    (hfp_send_atd hfp number w).cmd = lit "ATD" ++ c_str number ++ lit ";\r" :=
  hfp_send_atd_cmd_short hfp number w h

theorem hfp_send_atd_exact_witness :
    (hfp_send_atd hfp0 (lit "12345") world0).cmd = lit "ATD" ++ c_str (lit "12345") ++ lit ";\r" :=
  hfp_send_atd_exact hfp0 (lit "12345") world0 (by decide)

/-- C1 (as stated) fails: for a number of 59 digits the command built is not
"ATD", the number, ";" and a carriage return; the carriage return is dropped. -/
theorem hfp_send_atd_exact_counterexample :
    (hfp_send_atd hfp0 (List.replicate 59 49) world0).cmd
        ≠ lit "ATD" ++ List.replicate 59 49 ++ lit ";\r" ∧
      (hfp_send_atd hfp0 (List.replicate 59 49) world0).cmd
        = lit "ATD" ++ List.replicate 59 49 ++ lit ";" := by
  decide

/-- C10: for a dial string `number` of length n without NUL, the command left
in the 64-byte buffer is the first min(n + 5, 63) bytes of "ATD" ++ number ++
";\r"; it has at most 63 bytes; it is the complete command exactly when
n ≤ 58; and the function returns 1 in every case. -/
theorem hfp_send_atd_truncates (hfp : hfp_pvt) (number : List Nat) (w : World)
    (h : ∀ b ∈ number, b ≠ 0) :
    (hfp_send_atd hfp number w).cmd
        = (lit "ATD" ++ number ++ lit ";\r").take (min (number.length + 5) 63) ∧
      (hfp_send_atd hfp number w).cmd.length ≤ 63 ∧
      ((hfp_send_atd hfp number w).cmd = lit "ATD" ++ number ++ lit ";\r"
        ↔ number.length ≤ 58) ∧
      (hfp_send_atd hfp number w).ret = 1 := by
  have hlen : (lit "ATD" ++ number ++ lit ";\r").length = number.length + 5 := by
    simp [lit]
  have hcmd : (hfp_send_atd hfp number w).cmd = (lit "ATD" ++ number ++ lit ";\r").take 63 := by
    rw [hfp_send_atd_cmd, atd_format, c_str_of_no_nul number h]
  refine ⟨?_, ?_, ?_, rfl⟩
  · rw [hcmd]
    rcases Nat.le_total (number.length + 5) 63 with hle | hle
    · rw [Nat.min_eq_left hle, List.take_of_length_le (by omega), List.take_of_length_le (by omega)]
    · rw [Nat.min_eq_right hle]
  · rw [hcmd, List.length_take]
    omega
  · rw [hcmd, List.take_eq_self_iff, hlen]
    omega

theorem hfp_send_atd_truncates_witness :
    (hfp_send_atd hfp0 (List.replicate 60 49) world0).cmd
        = (lit "ATD" ++ List.replicate 60 49 ++ lit ";\r").take
            (min ((List.replicate 60 49).length + 5) 63) ∧
      (hfp_send_atd hfp0 (List.replicate 60 49) world0).cmd.length ≤ 63 ∧
      ((hfp_send_atd hfp0 (List.replicate 60 49) world0).cmd
          = lit "ATD" ++ List.replicate 60 49 ++ lit ";\r"
        ↔ (List.replicate 60 49).length ≤ 58) ∧
      (hfp_send_atd hfp0 (List.replicate 60 49) world0).ret = 1 :=
  hfp_send_atd_truncates hfp0 (List.replicate 60 49) world0 (by decide)

/-- C2 (amended): `hfp_send_atd` does not inspect the dial string. It returns
1 for every number and rejects none; and for a number without NUL of at most
58 bytes the command built ends with a carriage return and holds exactly one
carriage return if and only if the number holds none. -/
theorem hfp_send_atd_carriage_return (hfp : hfp_pvt) (number : List Nat) (w : World) :
    (hfp_send_atd hfp number w).ret = 1 ∧
      ((∀ b ∈ number, b ≠ 0) → number.length ≤ 58 →
        (hfp_send_atd hfp number w).cmd.getLast? = some 13 ∧
        ((hfp_send_atd hfp number w).cmd.count 13 = 1 ↔ 13 ∉ number)) := by
  refine ⟨rfl, ?_⟩
  intro h hlen
  have hcmd : (hfp_send_atd hfp number w).cmd = lit "ATD" ++ number ++ lit ";\r" := by
    have := hfp_send_atd_cmd_short hfp number w (by rw [c_str_of_no_nul number h]; exact hlen)
    rwa [c_str_of_no_nul number h] at this
  refine ⟨?_, ?_⟩
  · rw [hcmd]
    have h3 : lit "ATD" ++ number ++ lit ";\r" = (lit "ATD" ++ number ++ [59]) ++ [13] := by
      simp [lit]
    rw [h3, List.getLast?_concat]
  · rw [hcmd]
    have h1 : (lit "ATD").count 13 = 0 := by decide
    have h2 : (lit ";\r").count 13 = 1 := by decide
    rw [List.count_append, List.count_append, h1, h2, ← List.count_eq_zero]
    omega

theorem hfp_send_atd_carriage_return_witness :
    (hfp_send_atd hfp0 (List.replicate 59 49 ++ [13]) world0).ret = 1 ∧
      (hfp_send_atd hfp0 (lit "12345") world0).cmd.getLast? = some 13 ∧
      ((hfp_send_atd hfp0 (lit "12345") world0).cmd.count 13 = 1 ↔ 13 ∉ lit "12345") :=
  ⟨(hfp_send_atd_carriage_return hfp0 (List.replicate 59 49 ++ [13]) world0).1,
    (hfp_send_atd_carriage_return hfp0 (lit "12345") world0).2 (by decide) (by decide)⟩

/-- C2 (as stated) fails: the dial string "1\r2" holds a carriage return, yet
`hfp_send_atd` returns the same value as for "12" and builds a command in
which that carriage return stands before the terminating ";\r". -/
theorem hfp_send_atd_carriage_return_counterexample :
    13 ∈ lit "1\r2" ∧
      (hfp_send_atd hfp0 (lit "1\r2") world0).ret = (hfp_send_atd hfp0 (lit "12") world0).ret ∧
      (hfp_send_atd hfp0 (lit "1\r2") world0).cmd = lit "ATD1\r2;\r" ∧
      (hfp_send_atd hfp0 (lit "1\r2") world0).cmd.count 13 = 2 := by
  decide

/-- C3 (amended): for every session whose `initialized` flag is not set and
every number, `hfp_send_atd` returns 1, the very value it returns for a
session whose flag is set, so that no NotReady failure can be told from
success; it performs no transport write and leaves every field of the
session unchanged. -/
theorem hfp_send_atd_before_slc (hfp : hfp_pvt) (number : List Nat) (w : World)
    (h : hfp.initialized = false) :
    (hfp_send_atd hfp number w).ret = 1 ∧
      (∀ ready : hfp_pvt, ready.initialized = true →
        (hfp_send_atd hfp number w).ret = (hfp_send_atd ready number w).ret) ∧
      (hfp_send_atd hfp number w).world.writes = w.writes ∧
      (∀ fd : Int, (hfp_send_atd hfp number w).world.sock_stream fd = w.sock_stream fd) ∧
      (hfp_send_atd hfp number w).hfp = hfp ∧
      (hfp_send_atd hfp number w).hfp.initialized = false := by
  refine ⟨rfl, ?_, rfl, ?_, rfl, ?_⟩
  · intro ready _
    rfl
  · intro fd
    rfl
  · exact h

theorem hfp_send_atd_before_slc_witness :
    (hfp_send_atd hfp0 (lit "12345") world0).ret = 1 ∧
      (hfp_send_atd hfp0 (lit "12345") world0).ret
        = (hfp_send_atd { hfp0 with initialized := true } (lit "12345") world0).ret ∧
      (hfp_send_atd hfp0 (lit "12345") world0).world.writes = [] ∧
      (hfp_send_atd hfp0 (lit "12345") world0).hfp = hfp0 :=
  ⟨(hfp_send_atd_before_slc hfp0 (lit "12345") world0 rfl).1,
    (hfp_send_atd_before_slc hfp0 (lit "12345") world0 rfl).2.1
      { hfp0 with initialized := true } rfl,
    (hfp_send_atd_before_slc hfp0 (lit "12345") world0 rfl).2.2.1,
    (hfp_send_atd_before_slc hfp0 (lit "12345") world0 rfl).2.2.2.2.1⟩

/-- C3 (as stated) fails: on a session whose `initialized` flag is not set,
dialling "12345" returns the very value returned when the flag is set, so no
NotReady failure can be told from success. -/
theorem hfp_send_atd_not_ready_counterexample :
    hfp0.initialized = false ∧
      (hfp_send_atd hfp0 (lit "12345") world0).ret
        = (hfp_send_atd { hfp0 with initialized := true } (lit "12345") world0).ret := by
  decide

/-! ## The socket helpers -/

/-- C6: the code at the failing input. Asked to write the 3 bytes "AT\r" on
socket 3, `rfcomm_write_full` returns 0 (success) and the output stream of the
socket is still empty: nothing was written, the bytes went to the trace line
on standard output only. -/
theorem rfcomm_write_full_writes_nothing :
    (rfcomm_write_full 3 (lit "AT\r") 3 world0).1 = 0 ∧
      (rfcomm_write_full 3 (lit "AT\r") 3 world0).2.sock_stream 3 = [] ∧
      (rfcomm_write_full 3 (lit "AT\r") 3 world0).2.sock_stream 3
        ≠ world0.sock_stream 3 ++ (lit "AT\r").take 3 ∧
      (rfcomm_write_full 3 (lit "AT\r") 3 world0).2.stdout
        = lit "rfcomm_write() (3) [AT\r]\n" := by
  decide

/-- C7: the code at the failing input. On socket 5 with a timeout of 100 ms
`rfcomm_wait` returns 1, which is neither 0 nor the descriptor 5. -/
theorem rfcomm_wait_returns_one :
    (rfcomm_wait 5 100).1 = 1 ∧ (rfcomm_wait 5 100).1 ≠ 0 ∧ (rfcomm_wait 5 100).1 ≠ 5 := by
  decide

/-! ## Constants -/

/-- C9: the indicator value constants are the wire values: service none = 0
and available = 1; call none = 0 and active = 1; callsetup none = 0,
incoming = 1, outgoing = 2, alerting = 3; the values of each domain are
pairwise distinct and the callsetup values are exactly the integers 0..3. -/
theorem cind_value_constants :
    (HFP_CIND_SERVICE_NONE = 0 ∧ HFP_CIND_SERVICE_AVAILABLE = 1) ∧
      (HFP_CIND_CALL_NONE = 0 ∧ HFP_CIND_CALL_ACTIVE = 1) ∧
      (HFP_CIND_CALLSETUP_NONE = 0 ∧ HFP_CIND_CALLSETUP_INCOMING = 1 ∧
        HFP_CIND_CALLSETUP_OUTGOING = 2 ∧ HFP_CIND_CALLSETUP_ALERTING = 3) ∧
      [HFP_CIND_SERVICE_NONE, HFP_CIND_SERVICE_AVAILABLE].Nodup ∧
      [HFP_CIND_CALL_NONE, HFP_CIND_CALL_ACTIVE].Nodup ∧
      [HFP_CIND_CALLSETUP_NONE, HFP_CIND_CALLSETUP_INCOMING, HFP_CIND_CALLSETUP_OUTGOING,
        HFP_CIND_CALLSETUP_ALERTING].Nodup ∧
      (∀ v : Int, v ∈ [HFP_CIND_CALLSETUP_NONE, HFP_CIND_CALLSETUP_INCOMING,
          HFP_CIND_CALLSETUP_OUTGOING, HFP_CIND_CALLSETUP_ALERTING] ↔ 0 ≤ v ∧ v ≤ 3) := by
  refine ⟨⟨rfl, rfl⟩, ⟨rfl, rfl⟩, ⟨rfl, rfl, rfl, rfl⟩, by decide, by decide, by decide, ?_⟩
  intro v
  simp only [HFP_CIND_CALLSETUP_NONE, HFP_CIND_CALLSETUP_INCOMING, HFP_CIND_CALLSETUP_OUTGOING,
    HFP_CIND_CALLSETUP_ALERTING, List.mem_cons, List.mem_singleton, List.not_mem_nil, or_false]
  omega

/-! ## The feature bitmasks -/

/-- C5: encoding `hfp_our_brsf` with the masks `HFP_HF_ECNR` .. `HFP_HF_CONTROL`
gives 4, that is `HFP_HF_CID` alone; each of the other six flags is off and
contributes 0. -/
theorem encode_hf_features_our_brsf :
    encode_hf_features hfp_our_brsf = 4 ∧
      encode_hf_features hfp_our_brsf = HFP_HF_CID ∧
      HFP_HF_CID = 2 ^ 2 ∧
      hfp_our_brsf.cid = true ∧
      hfp_our_brsf.ecnr = false ∧ hfp_our_brsf.cw = false ∧ hfp_our_brsf.voice = false ∧
      hfp_our_brsf.volume = false ∧ hfp_our_brsf.status = false ∧
      hfp_our_brsf.control = false ∧
      encode_hf_features { hfp_our_brsf with cid := false } = 0 := by
  decide

/-- C4: for every bitmask b, decoding sets each of the nine AG flags exactly
when the bit 0..8 of its mask is set in b, the bitmask re-assembled from the
flags is b mod 512, and bitmasks that agree modulo 512 (that differ only in
bits 9 and above) decode to the same flags. The decoder is a total function. -/
theorem decode_ag_features_round_trip (b : Nat) :
    ((decode_ag_features b).cw = b.testBit 0 ∧
      (decode_ag_features b).ecnr = b.testBit 1 ∧
      (decode_ag_features b).voice = b.testBit 2 ∧
      (decode_ag_features b).ring = b.testBit 3 ∧
      (decode_ag_features b).tag = b.testBit 4 ∧
      (decode_ag_features b).reject = b.testBit 5 ∧
      (decode_ag_features b).status = b.testBit 6 ∧
      (decode_ag_features b).control = b.testBit 7 ∧
      (decode_ag_features b).errors = b.testBit 8) ∧
    ag_features_bitmask (decode_ag_features b) = b % 512 ∧
    (∀ c : Nat, c % 512 = b % 512 → decode_ag_features c = decode_ag_features b) := by
  have hlt : b % 512 < 512 := Nat.mod_lt _ (by decide)
  have ht := decode_ag_features_table ⟨b % 512, hlt⟩
  have hbit : ∀ i, i < 9 → (b % 512).testBit i = b.testBit i := by
    intro i hi
    have := Nat.testBit_mod_two_pow b 9 i
    norm_num at this
    rw [this]
    simp [hi]
  simp only [hbit 0 (by decide), hbit 1 (by decide), hbit 2 (by decide), hbit 3 (by decide),
    hbit 4 (by decide), hbit 5 (by decide), hbit 6 (by decide), hbit 7 (by decide),
    hbit 8 (by decide)] at ht
  rw [decode_ag_features_mod b]
  refine ⟨ht.1, ht.2, ?_⟩
  intro c hc
  rw [decode_ag_features_mod c, hc]

theorem decode_ag_features_round_trip_witness :
    (decode_ag_features 1536 = decode_ag_features 1024) ∧
      ag_features_bitmask (decode_ag_features 1024) = 1024 % 512 :=
  ⟨(decode_ag_features_round_trip 1024).2.2 1536 (by decide),
    (decode_ag_features_round_trip 1024).2.1⟩

/-! ## The byte feed -/

/-- C8: for every split of a response into two pieces `a` and `b`, two calls
of `on_bytes` (first `a`, then `b`) give the same decoded events, effects and
resulting session as one call with `a ++ b`. For a complete line `l` (no
terminator inside `l`) fed to a session with an empty buffer, that is the
single event `decode_response l`, applied once, and an empty buffer; for the
line "+CIEV:1,3\r\n" the single event is `IndicatorChanged 1 3`. -/
theorem on_bytes_split_invariant {σ ε : Type} (step : σ → Event → σ × List ε)
    (s : CallSession σ) (a b : List Nat) :
    on_bytes_twice step s a b = on_bytes step s (a ++ b) ∧
      (∀ l : List Nat, s.rx = [] → split_line l = none → a ++ b = l ++ lit "\r\n" →
        (on_bytes_twice step s a b).events = [decode_response l] ∧
        (on_bytes_twice step s a b).session.rx = [] ∧
        (on_bytes_twice step s a b).session.state = (step s.state (decode_response l)).1 ∧
        (on_bytes_twice step s a b).effects = (step s.state (decode_response l)).2) ∧
      (s.rx = [] → a ++ b = lit "+CIEV:1,3\r\n" →
        (on_bytes_twice step s a b).events = [Event.IndicatorChanged 1 3] ∧
        (on_bytes step s (lit "+CIEV:1,3\r\n")).events = [Event.IndicatorChanged 1 3]) := by
  have hline : ∀ l : List Nat, s.rx = [] → split_line l = none → a ++ b = l ++ lit "\r\n" →
      (on_bytes_twice step s a b).events = [decode_response l] ∧
      (on_bytes_twice step s a b).session.rx = [] ∧
      (on_bytes_twice step s a b).session.state = (step s.state (decode_response l)).1 ∧
      (on_bytes_twice step s a b).effects = (step s.state (decode_response l)).2 := by
    intro l hrx hl hab
    have hcrlf : lit "\r\n" = [13, 10] := rfl
    rw [on_bytes_twice_eq, hab, hcrlf]
    simp only [on_bytes, hrx, List.nil_append, take_lines_complete l hl, List.map_cons,
      List.map_nil, apply_events, List.append_nil, and_self]
  refine ⟨on_bytes_twice_eq step s a b, hline, ?_⟩
  intro hrx hab
  have hd : decode_response (lit "+CIEV:1,3") = Event.IndicatorChanged 1 3 := by decide
  have h1 := (hline (lit "+CIEV:1,3") hrx (by decide) hab).1
  rw [hd] at h1
  refine ⟨h1, ?_⟩
  rw [← hab, ← on_bytes_twice_eq]
  exact h1

theorem on_bytes_split_invariant_witness :
    (on_bytes_twice sample_step ⟨hfp0, []⟩ (lit "+CIEV:1") (lit ",3\r\n")).events
        = [Event.IndicatorChanged 1 3] ∧
      (on_bytes_twice sample_step ⟨hfp0, []⟩ (lit "+CIEV:1") (lit ",3\r\n")).session.state.cind_state
        = (List.replicate 16 0).set 1 3 :=
  ⟨((on_bytes_split_invariant sample_step ⟨hfp0, []⟩ (lit "+CIEV:1") (lit ",3\r\n")).2.2
      rfl (by decide)).1,
    by
      rw [((on_bytes_split_invariant sample_step ⟨hfp0, []⟩ (lit "+CIEV:1") (lit ",3\r\n")).2.1
        (lit "+CIEV:1,3") rfl (by decide) (by decide)).2.2.1]
      decide⟩

end BluezTools
